import Mathlib

/-!
Verification of the newsletter transmission and delivery-tracking pipeline.

The definitions below are a shallow embedding of the Cloud Functions in
`functions/src` (sendNewsletter.ts, scheduledNewsletters.ts, tracking.ts,
emailService.ts). The Firestore record store is modelled as explicit lists
of records threaded through the functions; `serverTimestamp()` becomes an
explicit `now : Nat` parameter; outbound SMTP delivery becomes an outcome
function `deliver : Recipient → Option String` (`none` = delivered,
`some msg` = per-recipient failure, mirroring `sendSingleEmail`'s result).
-/

namespace NL

/-! ## Data model (functions/src/types.ts) -/

inductive NewsletterStatus where
  | draft
  | scheduled
  | sent
  | paused
  | sending
deriving DecidableEq, Repr

structure Stats where
  sent : Nat
  opened : Nat
  uniqueOpened : Nat
  clicked : Nat
  uniqueClicked : Nat
  bounced : Nat
deriving DecidableEq, Repr

structure Newsletter where
  id : String
  subject : String
  status : NewsletterStatus
  categoryId : String
  recipientGroupIds : List String
  htmlContent : String
  scheduledAt : Option Nat
  sentAt : Option Nat
  stats : Stats
  updatedAt : Nat
deriving DecidableEq, Repr

structure Recipient where
  id : String
  email : String
  firstName : Option String
  lastName : Option String
deriving DecidableEq, Repr

structure RecipientGroup where
  id : String
  name : String
  recipients : List Recipient
deriving DecidableEq, Repr

structure SendResult where
  success : Bool
  newsletterId : String
  totalRecipients : Nat
  successCount : Nat
  failureCount : Nat
  errors : List (String × String)
deriving DecidableEq, Repr

/-- The Firestore collections touched by the send pipeline. -/
structure Store where
  newsletters : List Newsletter
  groups : List RecipientGroup
deriving DecidableEq, Repr

/-- Firestore document lookup by id (`collection('newsletters').doc(id).get()`). -/
def getNewsletter (ns : List Newsletter) (nid : String) : Option Newsletter :=
  ns.find? (fun n => n.id = nid)

def findGroup (groups : List RecipientGroup) (gid : String) : Option RecipientGroup :=
  groups.find? (fun g => g.id = gid)

/-! ## Recipient resolution (sendNewsletter.ts, `fetchRecipients`)

The loop keeps a `seenEmails` set and pushes a recipient only when its
email (exactly as stored, no case normalisation) has not been seen. -/

/-- Inner `recipientsSnapshot.forEach` loop of `fetchRecipients`:
state is `(seenEmails, allRecipients)`. -/
def addGroupRecipients : List Recipient → List String × List Recipient → List String × List Recipient
  | [], acc => acc
  | r :: rest, (seen, out) =>
    if r.email ∈ seen then addGroupRecipients rest (seen, out)
    else addGroupRecipients rest (r.email :: seen, out ++ [r])

/-- Outer `for (const groupId of groupIds)` loop: a missing group is
skipped (`continue`) with only a console warning. -/
def fetchRecipientsAux (groups : List RecipientGroup) : List String → List String × List Recipient → List String × List Recipient
  | [], acc => acc
  | gid :: rest, acc =>
    match findGroup groups gid with
    | none => fetchRecipientsAux groups rest acc
    | some g => fetchRecipientsAux groups rest (addGroupRecipients g.recipients acc)

def fetchRecipients (groups : List RecipientGroup) (groupIds : List String) : List Recipient :=
  (fetchRecipientsAux groups groupIds ([], [])).2

/-! ## Batch dispatcher (emailService.ts, `sendNewsletterEmails`)

`BATCH_SIZE = 10`; the loop takes `recipients.slice(i, i + 10)`, sends the
batch, aggregates outcomes, and sleeps `BATCH_DELAY` iff `i + 10 <
recipients.length`. The loop is rendered on the remaining suffix
(`recipients.drop i`), with fuel for structural recursion. -/

structure LoopOut where
  successCount : Nat
  failureCount : Nat
  errors : List (String × String)
  delays : Nat
  batches : List (List Recipient)
deriving DecidableEq, Repr

def BATCH_SIZE : Nat := 10

def sendLoopAux (deliver : Recipient → Option String) : Nat → List Recipient → LoopOut
  | _, [] => ⟨0, 0, [], 0, []⟩
  | 0, _ :: _ => ⟨0, 0, [], 0, []⟩
  | fuel + 1, r :: rs =>
    let remaining := r :: rs
    let batch := remaining.take BATCH_SIZE
    let succ := (batch.filter (fun x => (deliver x).isNone)).length
    let fail := (batch.filter (fun x => (deliver x).isSome)).length
    let errs := batch.filterMap (fun x => (deliver x).map (fun e => (x.email, e)))
    let tail := sendLoopAux deliver fuel (remaining.drop BATCH_SIZE)
    ⟨succ + tail.successCount, fail + tail.failureCount, errs ++ tail.errors,
      (if BATCH_SIZE < remaining.length then 1 else 0) + tail.delays,
      batch :: tail.batches⟩

def sendLoop (deliver : Recipient → Option String) (recipients : List Recipient) : LoopOut :=
  sendLoopAux deliver recipients.length recipients

def sendNewsletterEmails (deliver : Recipient → Option String) (n : Newsletter)
    (recipients : List Recipient) : SendResult :=
  let o := sendLoop deliver recipients
  { success := o.failureCount = 0
    newsletterId := n.id
    totalRecipients := recipients.length
    successCount := o.successCount
    failureCount := o.failureCount
    errors := o.errors }

/-! ### Dispatcher lemmas -/

theorem sendLoopAux_fuel (deliver : Recipient → Option String) :
    ∀ f₁ f₂ rs, rs.length ≤ f₁ → rs.length ≤ f₂ →
      sendLoopAux deliver f₁ rs = sendLoopAux deliver f₂ rs := by
  intro f₁
  induction f₁ with
  | zero =>
    intro f₂ rs h₁ _
    have : rs = [] := List.length_eq_zero.mp (Nat.le_zero.mp h₁)
    subst this
    cases f₂ <;> rfl
  | succ f ih =>
    intro f₂ rs h₁ h₂
    cases rs with
    | nil => cases f₂ <;> rfl
    | cons r rs' =>
      cases f₂ with
      | zero => exact absurd h₂ (by simp)
      | succ f₂' =>
        simp only [List.length_cons] at h₁ h₂
        simp only [sendLoopAux]
        have hlen : ((r :: rs').drop BATCH_SIZE).length ≤ f := by
          simp only [List.length_drop, List.length_cons, BATCH_SIZE]
          omega
        have hlen₂ : ((r :: rs').drop BATCH_SIZE).length ≤ f₂' := by
          simp only [List.length_drop, List.length_cons, BATCH_SIZE]
          omega
        rw [ih _ _ hlen hlen₂]

theorem sendLoop_cons (deliver : Recipient → Option String) (r : Recipient) (rs : List Recipient) :
    sendLoop deliver (r :: rs) =
      (let remaining := r :: rs
       let batch := remaining.take BATCH_SIZE
       let tail := sendLoop deliver (remaining.drop BATCH_SIZE)
       ⟨(batch.filter (fun x => (deliver x).isNone)).length + tail.successCount,
        (batch.filter (fun x => (deliver x).isSome)).length + tail.failureCount,
        batch.filterMap (fun x => (deliver x).map (fun e => (x.email, e))) ++ tail.errors,
        (if BATCH_SIZE < remaining.length then 1 else 0) + tail.delays,
        batch :: tail.batches⟩) := by
  show sendLoopAux deliver (r :: rs).length (r :: rs) = _
  simp only [List.length_cons, sendLoopAux]
  have h : ((r :: rs).drop BATCH_SIZE).length ≤ rs.length := by
    simp only [List.length_drop, List.length_cons, BATCH_SIZE]
    omega
  rw [sendLoopAux_fuel deliver rs.length ((r :: rs).drop BATCH_SIZE).length _ h (Nat.le_refl _)]
  rfl

theorem sendLoop_nil (deliver : Recipient → Option String) :
    sendLoop deliver [] = ⟨0, 0, [], 0, []⟩ := rfl

theorem filter_isNone_isSome_length (deliver : Recipient → Option String) :
    ∀ rs : List Recipient,
      (rs.filter (fun x => (deliver x).isNone)).length
        + (rs.filter (fun x => (deliver x).isSome)).length = rs.length := by
  intro rs
  induction rs with
  | nil => rfl
  | cons r rest ih =>
    cases h : deliver r <;> simp [List.filter_cons, h] <;> omega

theorem sendLoopAux_counts (deliver : Recipient → Option String) :
    ∀ fuel rs, rs.length ≤ fuel →
      (sendLoopAux deliver fuel rs).successCount
          = (rs.filter (fun x => (deliver x).isNone)).length
        ∧ (sendLoopAux deliver fuel rs).failureCount
          = (rs.filter (fun x => (deliver x).isSome)).length
        ∧ (sendLoopAux deliver fuel rs).errors
          = rs.filterMap (fun x => (deliver x).map (fun e => (x.email, e))) := by
  intro fuel
  induction fuel with
  | zero =>
    intro rs h
    have : rs = [] := List.length_eq_zero.mp (Nat.le_zero.mp h)
    subst this
    exact ⟨rfl, rfl, rfl⟩
  | succ f ih =>
    intro rs h
    cases rs with
    | nil => exact ⟨rfl, rfl, rfl⟩
    | cons r rs' =>
      simp only [List.length_cons] at h
      have hlen : ((r :: rs').drop BATCH_SIZE).length ≤ f := by
        simp only [List.length_drop, List.length_cons, BATCH_SIZE]
        omega
      obtain ⟨ih₁, ih₂, ih₃⟩ := ih _ hlen
      simp only [sendLoopAux]
      refine ⟨?_, ?_, ?_⟩
      · rw [ih₁]
        conv_rhs => rw [← List.take_append_drop BATCH_SIZE (r :: rs')]
        rw [List.filter_append, List.length_append]
      · rw [ih₂]
        conv_rhs => rw [← List.take_append_drop BATCH_SIZE (r :: rs')]
        rw [List.filter_append, List.length_append]
      · rw [ih₃]
        conv_rhs => rw [← List.take_append_drop BATCH_SIZE (r :: rs')]
        rw [List.filterMap_append]

theorem sendLoop_counts (deliver : Recipient → Option String) (rs : List Recipient) :
    (sendLoop deliver rs).successCount = (rs.filter (fun x => (deliver x).isNone)).length
    ∧ (sendLoop deliver rs).failureCount = (rs.filter (fun x => (deliver x).isSome)).length
    ∧ (sendLoop deliver rs).errors
        = rs.filterMap (fun x => (deliver x).map (fun e => (x.email, e))) :=
  sendLoopAux_counts deliver rs.length rs (Nat.le_refl _)

/-- C6: for every recipient list and delivery-outcome function, the
dispatcher's `SendResult` satisfies `success = (failureCount = 0)`,
`successCount + failureCount = totalRecipients` with `totalRecipients` the
length of the input; each recipient's outcome is independent: the errors
list is exactly the `(email, message)` pair of every failing recipient, in
order, so one failure stops neither its batch nor later batches. -/
theorem sendResult_consistent (deliver : Recipient → Option String) (n : Newsletter)
    (rs : List Recipient) :
    ((sendNewsletterEmails deliver n rs).success = true
        ↔ (sendNewsletterEmails deliver n rs).failureCount = 0)
    ∧ (sendNewsletterEmails deliver n rs).successCount
        + (sendNewsletterEmails deliver n rs).failureCount
        = (sendNewsletterEmails deliver n rs).totalRecipients
    ∧ (sendNewsletterEmails deliver n rs).totalRecipients = rs.length
    ∧ (sendNewsletterEmails deliver n rs).errors
        = rs.filterMap (fun x => (deliver x).map (fun e => (x.email, e))) := by
  obtain ⟨h₁, h₂, h₃⟩ := sendLoop_counts deliver rs
  refine ⟨?_, ?_, rfl, ?_⟩
  · simp [sendNewsletterEmails]
  · simp only [sendNewsletterEmails, h₁, h₂]
    exact filter_isNone_isSome_length deliver rs
  · simpa [sendNewsletterEmails] using h₃

theorem sendLoopAux_batches (deliver : Recipient → Option String) :
    ∀ fuel rs, rs.length ≤ fuel → rs ≠ [] →
      (sendLoopAux deliver fuel rs).batches.length
          = (rs.length + BATCH_SIZE - 1) / BATCH_SIZE
        ∧ (sendLoopAux deliver fuel rs).batches.flatten = rs
        ∧ (∀ b ∈ (sendLoopAux deliver fuel rs).batches.dropLast, b.length = BATCH_SIZE)
        ∧ (∀ b ∈ (sendLoopAux deliver fuel rs).batches, b ≠ [] ∧ b.length ≤ BATCH_SIZE)
        ∧ (sendLoopAux deliver fuel rs).delays
          = (sendLoopAux deliver fuel rs).batches.length - 1 := by
  intro fuel
  induction fuel with
  | zero =>
    intro rs h hne
    exact absurd (List.length_eq_zero.mp (Nat.le_zero.mp h)) hne
  | succ f ih =>
    intro rs h hne
    cases rs with
    | nil => exact absurd rfl hne
    | cons r rs' =>
      simp only [List.length_cons] at h
      simp only [sendLoopAux]
      by_cases hrest : (r :: rs').drop BATCH_SIZE = []
      · have hle : (r :: rs').length ≤ BATCH_SIZE := by
          have := List.drop_eq_nil_iff.mp hrest
          simpa using this
        have htake : (r :: rs').take BATCH_SIZE = r :: rs' := List.take_of_length_le hle
        rw [hrest]
        have hzero : sendLoopAux deliver f [] = ⟨0, 0, [], 0, []⟩ := by cases f <;> rfl
        rw [hzero]
        simp only [List.length_cons] at hle
        simp only [BATCH_SIZE] at hle
        refine ⟨?_, ?_, ?_, ?_, ?_⟩
        · show 1 = ((rs'.length + 1) + BATCH_SIZE - 1) / BATCH_SIZE
          simp only [BATCH_SIZE]
          exact (Nat.div_eq_of_lt_le (by omega) (by omega)).symm
        · simp [htake]
        · intro b hb
          simp at hb
        · intro b hb
          simp only [List.mem_singleton] at hb
          subst hb
          refine ⟨by simp [htake], ?_⟩
          rw [htake]
          simp only [List.length_cons, BATCH_SIZE]
          omega
        · have hnl : ¬ BATCH_SIZE < (r :: rs').length := by
            simp only [List.length_cons, BATCH_SIZE]
            omega
          rw [if_neg hnl]
          simp
      · have hlt : BATCH_SIZE < (r :: rs').length := by
          by_contra hcon
          exact hrest (List.drop_eq_nil_iff.mpr (Nat.le_of_not_lt hcon))
        have hlen : ((r :: rs').drop BATCH_SIZE).length ≤ f := by
          simp only [List.length_drop, List.length_cons, BATCH_SIZE]
          simp only [List.length_cons, BATCH_SIZE] at hlt
          omega
        obtain ⟨ih₁, ih₂, ih₃, ih₄, ih₅⟩ := ih _ hlen hrest
        have htb_ne : (sendLoopAux deliver f ((r :: rs').drop BATCH_SIZE)).batches ≠ [] := by
          intro hcon
          rw [hcon] at ih₂
          exact hrest ih₂.symm
        have htake_len : ((r :: rs').take BATCH_SIZE).length = BATCH_SIZE := by
          rw [List.length_take]
          exact Nat.min_eq_left (Nat.le_of_lt hlt)
        refine ⟨?_, ?_, ?_, ?_, ?_⟩
        · show _ + 1 = ((r :: rs').length + BATCH_SIZE - 1) / BATCH_SIZE
          rw [ih₁]
          simp only [List.length_drop]
          have h10 : BATCH_SIZE = 10 := rfl
          simp only [List.length_cons] at hlt ⊢
          rw [h10] at hlt ⊢
          have hL : rs'.length + 1 + 10 - 1 = (rs'.length + 1 - 10 + 10 - 1) + 10 := by omega
          rw [hL, Nat.add_div_right _ (by norm_num)]
        · show _ ++ _ = r :: rs'
          rw [ih₂]
          exact List.take_append_drop BATCH_SIZE (r :: rs')
        · intro b hb
          obtain ⟨tb, htb⟩ := List.exists_cons_of_ne_nil htb_ne
          obtain ⟨b₀, tb'⟩ := htb
          rw [tb'] at hb ih₃
          rw [List.dropLast_cons₂] at hb
          rcases List.mem_cons.mp hb with hb | hb
          · rw [hb]
            exact htake_len
          · exact ih₃ b hb
        · intro b hb
          rcases List.mem_cons.mp hb with hb | hb
          · subst hb
            constructor
            · intro hcon
              have := congrArg List.length hcon
              rw [htake_len] at this
              exact absurd this.symm (by norm_num [BATCH_SIZE])
            · exact Nat.le_of_eq htake_len
          · exact ih₄ b hb
        · have hif : (if BATCH_SIZE < (r :: rs').length then 1 else 0) = 1 := if_pos hlt
          rw [hif, ih₅]
          have hpos : 0 < (sendLoopAux deliver f ((r :: rs').drop BATCH_SIZE)).batches.length :=
            List.length_pos.mpr htb_ne
          simp only [List.length_cons]
          omega

/-- C7: for every non-empty recipient list of length n, the dispatcher
partitions it into ceil(n/10) batches of size 10 except a possibly smaller
non-empty last batch, and inserts exactly ceil(n/10) - 1 inter-batch pacing
delays (none after the last batch). -/
theorem sendLoop_batch_plan (deliver : Recipient → Option String) (rs : List Recipient)
    (hne : rs ≠ []) :
    (sendLoop deliver rs).batches.length = (rs.length + BATCH_SIZE - 1) / BATCH_SIZE
    ∧ (sendLoop deliver rs).batches.flatten = rs
    ∧ (∀ b ∈ (sendLoop deliver rs).batches.dropLast, b.length = BATCH_SIZE)
    ∧ (∀ b ∈ (sendLoop deliver rs).batches, b ≠ [] ∧ b.length ≤ BATCH_SIZE)
    ∧ (sendLoop deliver rs).delays = (sendLoop deliver rs).batches.length - 1 :=
  sendLoopAux_batches deliver rs.length rs (Nat.le_refl _) hne

/-- Concrete inputs used to instantiate the dispatcher claims: 25 identical
recipients, all deliveries succeeding (the batch plan is outcome-independent). -/
def demoRecipient : Recipient := ⟨"r", "r@x.com", none, none⟩

def rs25 : List Recipient := List.replicate 25 demoRecipient

def deliverOk : Recipient → Option String := fun _ => none

/-- C7 witness: 25 recipients dispatch in 3 batches of sizes 10, 10, 5 with
exactly 2 inter-batch delays. -/
theorem sendLoop_batch_plan_witness :
    rs25 ≠ []
    ∧ (sendLoop deliverOk rs25).batches.flatten = rs25
    ∧ (sendLoop deliverOk rs25).delays = (sendLoop deliverOk rs25).batches.length - 1
    ∧ (sendLoop deliverOk rs25).batches.map List.length = [10, 10, 5]
    ∧ (sendLoop deliverOk rs25).delays = 2 :=
  ⟨by decide, (sendLoop_batch_plan deliverOk rs25 (by decide)).2.1,
   (sendLoop_batch_plan deliverOk rs25 (by decide)).2.2.2.2, by decide, by decide⟩

/-! ### Recipient-resolution lemmas (claim C2) -/

theorem addGroupRecipients_inv :
    ∀ (rs : List Recipient) (seen : List String) (out : List Recipient),
      (∀ x ∈ out, x.email ∈ seen) →
      List.Pairwise (fun a b => a.email ≠ b.email) out →
      (∀ x ∈ (addGroupRecipients rs (seen, out)).2, x.email ∈ (addGroupRecipients rs (seen, out)).1)
      ∧ List.Pairwise (fun a b => a.email ≠ b.email) (addGroupRecipients rs (seen, out)).2 := by
  intro rs
  induction rs with
  | nil => exact fun seen out hmem hpw => ⟨hmem, hpw⟩
  | cons r rest ih =>
    intro seen out hmem hpw
    by_cases hseen : r.email ∈ seen
    · simpa [addGroupRecipients, hseen] using ih seen out hmem hpw
    · have hmem' : ∀ x ∈ out ++ [r], x.email ∈ r.email :: seen := by
        intro x hx
        rcases List.mem_append.mp hx with hx | hx
        · exact List.mem_cons_of_mem _ (hmem x hx)
        · rw [List.mem_singleton.mp hx]
          exact List.mem_cons_self _ _
      have hpw' : List.Pairwise (fun a b => a.email ≠ b.email) (out ++ [r]) := by
        rw [List.pairwise_append]
        refine ⟨hpw, List.pairwise_singleton _ _, ?_⟩
        intro a ha b hb
        rw [List.mem_singleton.mp hb]
        intro heq
        exact hseen (heq ▸ hmem a ha)
      simpa [addGroupRecipients, hseen] using ih (r.email :: seen) (out ++ [r]) hmem' hpw'

theorem fetchRecipientsAux_inv (groups : List RecipientGroup) :
    ∀ (gids : List String) (seen : List String) (out : List Recipient),
      (∀ x ∈ out, x.email ∈ seen) →
      List.Pairwise (fun a b => a.email ≠ b.email) out →
      List.Pairwise (fun a b => a.email ≠ b.email) (fetchRecipientsAux groups gids (seen, out)).2 := by
  intro gids
  induction gids with
  | nil => exact fun seen out _ hpw => hpw
  | cons gid rest ih =>
    intro seen out hmem hpw
    simp only [fetchRecipientsAux]
    cases hg : findGroup groups gid with
    | none => exact ih seen out hmem hpw
    | some g =>
      obtain ⟨hmem', hpw'⟩ := addGroupRecipients_inv g.recipients seen out hmem hpw
      rcases hsp : addGroupRecipients g.recipients (seen, out) with ⟨s', o'⟩
      rw [hsp] at hmem' hpw'
      show List.Pairwise (fun a b => a.email ≠ b.email)
        (fetchRecipientsAux groups rest (addGroupRecipients g.recipients (seen, out))).2
      rw [hsp]
      exact ih s' o' hmem' hpw'

/-- C2 (amended): recipient resolution flattens the groups and dedupes by
the email **exactly as stored** (case-sensitive, no lower-casing), keeping
the first-encountered record, so no two entries of the resolved list have
the same exact email; a missing group is skipped rather than raising an
error. -/
theorem fetchRecipients_dedup_exact (groups : List RecipientGroup) (gids : List String) :
    List.Pairwise (fun a b => a.email ≠ b.email) (fetchRecipients groups gids)
    ∧ ∀ gid, findGroup groups gid = none →
        fetchRecipients groups (gid :: gids) = fetchRecipients groups gids := by
  constructor
  · exact fetchRecipientsAux_inv groups gids [] [] (by intro x hx; cases hx) List.Pairwise.nil
  · intro gid hgid
    show (fetchRecipientsAux groups (gid :: gids) ([], [])).2 = _
    simp only [fetchRecipientsAux, hgid]
    rfl

/-- Two recipients whose stored emails differ only by letter case. -/
def rUpper : Recipient := ⟨"r1", "A@x.com", none, none⟩

def rLower : Recipient := ⟨"r2", "a@x.com", none, none⟩

def gDup : RecipientGroup := ⟨"g1", "G", [rUpper, rLower]⟩

/-- C2 counterexample: resolution does **not** dedupe by lower-cased email.
A group holding `A@x.com` and `a@x.com` resolves to both records, so the
resolved list contains two entries whose emails are equal after
lower-casing, contradicting the claim. -/
theorem fetchRecipients_not_lowercase_dedup :
    fetchRecipients [gDup] ["g1"] = [rUpper, rLower]
    ∧ rUpper.email.data.map Char.toLower = rLower.email.data.map Char.toLower
    ∧ rUpper.email ≠ rLower.email := by
  refine ⟨by decide, by decide, by decide⟩

/-- C2 witness: the amended dedup theorem applied to the concrete groups,
with a missing group id skipped. -/
theorem fetchRecipients_dedup_exact_witness :
    List.Pairwise (fun a b => a.email ≠ b.email) (fetchRecipients [gDup] ["g1"])
    ∧ fetchRecipients [gDup] ["missing", "g1"] = fetchRecipients [gDup] ["g1"] :=
  ⟨(fetchRecipients_dedup_exact [gDup] ["g1"]).1,
   (fetchRecipients_dedup_exact [gDup] ["g1"]).2 "missing" (by decide)⟩

/-! ## Delivery tracker (tracking.ts)

The tracking store is the `tracking` collection (append-only events), the
`newsletters` collection (stats counters) and the audit log (event count).
Failure injection flags model each awaited Firestore write throwing;
`logEmailOpened` cannot throw (its `logAuditEvent` swallows errors), so its
flag only suppresses the audit append. -/

structure TrackingEvent where
  newsletterId : String
  recipientId : String
  recipientEmail : String
  eventType : String
  linkUrl : Option String
  userAgent : String
  ipAddress : String
deriving DecidableEq, Repr

structure TrackState where
  tracking : List TrackingEvent
  newsletters : List Newsletter
  auditCount : Nat
deriving DecidableEq, Repr

/-- `tracking.where(newsletterId).where(recipientId).where(eventType).limit(1)`
is non-empty iff some matching event exists. -/
def eventExists (evs : List TrackingEvent) (nid rid ty : String) : Bool :=
  evs.any (fun e => e.newsletterId = nid && e.recipientId = rid && e.eventType = ty)

/-- `newsletters.doc(nid).update({'stats.opened': increment(1), ...})`:
Firestore `update` throws when the document does not exist (`none`). -/
def updateOpenStats (nid : String) (isUnique : Bool) (ns : List Newsletter) :
    Option (List Newsletter) :=
  if ns.any (fun n => n.id = nid) then
    some (ns.map (fun n =>
      if n.id = nid then
        { n with stats :=
          { n.stats with
            opened := n.stats.opened + 1
            uniqueOpened := if isUnique then n.stats.uniqueOpened + 1 else n.stats.uniqueOpened } }
      else n))
  else none

structure TrackFailures where
  queryFails : Bool
  addFails : Bool
  updateFails : Bool
  auditFails : Bool
deriving DecidableEq, Repr

def noFailures : TrackFailures := ⟨false, false, false, false⟩

/-- The `try` body of `trackOpenFunction`: steps 1-4 (uniqueness query,
event append, counter update, audit). A throw carries the state at the
point of the throw (side effects already applied persist). -/
def trackOpenBody (ff : TrackFailures) (nid rid ua ip : String) (st : TrackState) :
    Except TrackState TrackState :=
  if ff.queryFails then .error st
  else
    let isUnique := !(eventExists st.tracking nid rid "open")
    if ff.addFails then .error st
    else
      let st₁ := { st with tracking := st.tracking ++ [⟨nid, rid, "", "open", none, ua, ip⟩] }
      if ff.updateFails then .error st₁
      else
        match updateOpenStats nid isUnique st₁.newsletters with
        | none => .error st₁
        | some ns =>
          let st₂ := { st₁ with newsletters := ns }
          .ok (if ff.auditFails then st₂ else { st₂ with auditCount := st₂.auditCount + 1 })

inductive RespBody where
  | text (s : String)
  | bytes (bs : List Nat)
  | redirect (url : String)
deriving DecidableEq, Repr

structure HttpResp where
  status : Nat
  contentType : Option String
  body : RespBody
deriving DecidableEq, Repr

/-- Base64 alphabet value of a character; `none` for padding and anything
outside the alphabet. -/
def b64Val (c : Char) : Option Nat :=
  let n := c.toNat
  if 65 ≤ n ∧ n ≤ 90 then some (n - 65)
  else if 97 ≤ n ∧ n ≤ 122 then some (n - 97 + 26)
  else if 48 ≤ n ∧ n ≤ 57 then some (n - 48 + 52)
  else if n = 43 then some 62
  else if n = 47 then some 63
  else none

def b64Aux : List Char → Nat → Nat → List Nat
  | [], _, _ => []
  | c :: cs, acc, bits =>
    match b64Val c with
    | none => b64Aux cs acc bits
    | some v =>
      let acc' := acc * 64 + v
      let bits' := bits + 6
      if 8 ≤ bits' then
        (acc' / 2 ^ (bits' - 8)) % 256 :: b64Aux cs (acc' % 2 ^ (bits' - 8)) (bits' - 8)
      else b64Aux cs acc' bits'

def base64Decode (s : String) : List Nat := b64Aux s.data 0 0

/-- `Buffer.from('R0lGODlh...', 'base64')`: the fixed 1x1 transparent GIF. -/
def TRACKING_PIXEL : List Nat :=
  base64Decode "R0lGODlhAQABAIAAAAAAAP///yH5BAEAAAAALAAAAAABAAEAAAIBRAA7"

/-- Sanity: the pixel bytes start with the ASCII header GIF89a. -/
theorem trackingPixel_gif_header : TRACKING_PIXEL.take 6 = [71, 73, 70, 56, 57, 97] := by
  decide

/-- A query-string parameter is truthy in JS iff present and non-empty. -/
def truthyParam : Option String → Bool
  | none => false
  | some s => !(s = "")

/-- `trackOpenFunction` handler: missing/empty `nid` or `rid` gives
`400 Missing parameters` before the `try`; otherwise the pixel is returned
whether the body succeeds or throws. -/
def trackOpenFunction (ff : TrackFailures) (nid? rid? : Option String) (ua ip : String)
    (st : TrackState) : HttpResp × TrackState :=
  if !truthyParam nid? || !truthyParam rid? then
    (⟨400, none, .text "Missing parameters"⟩, st)
  else
    match nid?, rid? with
    | some nid, some rid =>
      match trackOpenBody ff nid rid ua ip st with
      | .ok st' => (⟨200, some "image/gif", .bytes TRACKING_PIXEL⟩, st')
      | .error st' => (⟨200, some "image/gif", .bytes TRACKING_PIXEL⟩, st')
    | _, _ => (⟨400, none, .text "Missing parameters"⟩, st)

def getStats (st : TrackState) (nid : String) : Option Stats :=
  (getNewsletter st.newsletters nid).map (fun n => n.stats)

theorem find?_map_id_stable (f : Newsletter → Newsletter) (hf : ∀ n, (f n).id = n.id)
    (nid : String) :
    ∀ ns : List Newsletter, (ns.map f).find? (fun n => n.id = nid)
      = (ns.find? (fun n => n.id = nid)).map f := by
  intro ns
  induction ns with
  | nil => rfl
  | cons n rest ih =>
    simp only [List.map_cons, List.find?_cons]
    by_cases h : n.id = nid
    · simp [hf n, h]
    · simp [hf n, h, ih]

theorem trackOpenBody_ok (st : TrackState) (nid rid ua ip : String)
    (hany : st.newsletters.any (fun m => m.id = nid) = true) :
    trackOpenBody noFailures nid rid ua ip st =
      .ok ⟨st.tracking ++ [⟨nid, rid, "", "open", none, ua, ip⟩],
           st.newsletters.map (fun m =>
             if m.id = nid then
               { m with stats :=
                 { m.stats with
                   opened := m.stats.opened + 1
                   uniqueOpened :=
                     if !(eventExists st.tracking nid rid "open") then m.stats.uniqueOpened + 1
                     else m.stats.uniqueOpened } }
             else m),
           st.auditCount + 1⟩ := by
  simp only [trackOpenBody, noFailures, Bool.false_eq_true, if_false, updateOpenStats, hany,
    if_true]

/-- C3: with no failures injected and the newsletter present, every
`trackOpen` call appends one TrackingEvent and increments `stats.opened`;
`stats.uniqueOpened` is incremented exactly when no prior open event for
the `(newsletter, recipient)` pair exists. Consequently, starting from a
fresh state, the first open for `(n1, r1)` yields `opened = 1,
uniqueOpened = 1` and a second open yields `opened = 2, uniqueOpened = 1`. -/
theorem trackOpen_counts :
    (∀ (st : TrackState) (nid rid ua ip : String) (n : Newsletter),
      nid ≠ "" → rid ≠ "" → getNewsletter st.newsletters nid = some n →
      (trackOpenFunction noFailures (some nid) (some rid) ua ip st).2.tracking
          = st.tracking ++ [⟨nid, rid, "", "open", none, ua, ip⟩]
        ∧ getStats (trackOpenFunction noFailures (some nid) (some rid) ua ip st).2 nid
          = some { n.stats with
              opened := n.stats.opened + 1
              uniqueOpened :=
                if eventExists st.tracking nid rid "open" then n.stats.uniqueOpened
                else n.stats.uniqueOpened + 1 })
    ∧ (let st₀ : TrackState :=
        ⟨[], [⟨"n1", "S", .sent, "c", [], "", none, some 0, ⟨0, 0, 0, 0, 0, 0⟩, 0⟩], 0⟩
       let st₁ := (trackOpenFunction noFailures (some "n1") (some "r1") "ua" "ip" st₀).2
       let st₂ := (trackOpenFunction noFailures (some "n1") (some "r1") "ua" "ip" st₁).2
       st₁.tracking.length = 1 ∧ getStats st₁ "n1" = some ⟨0, 1, 1, 0, 0, 0⟩
       ∧ st₂.tracking.length = 2 ∧ getStats st₂ "n1" = some ⟨0, 2, 1, 0, 0, 0⟩) := by
  constructor
  · intro st nid rid ua ip n hnid hrid hfind
    have hmem : n ∈ st.newsletters := List.mem_of_find?_eq_some hfind
    have hpn : n.id = nid := by
      have := List.find?_some hfind
      simpa using this
    have hany : st.newsletters.any (fun m => m.id = nid) = true :=
      List.any_eq_true.mpr ⟨n, hmem, by simp [hpn]⟩
    have htruthy₁ : truthyParam (some nid) = true := by
      simp [truthyParam, hnid]
    have htruthy₂ : truthyParam (some rid) = true := by
      simp [truthyParam, hrid]
    have hfn : trackOpenFunction noFailures (some nid) (some rid) ua ip st
        = (⟨200, some "image/gif", .bytes TRACKING_PIXEL⟩,
           ⟨st.tracking ++ [⟨nid, rid, "", "open", none, ua, ip⟩],
            st.newsletters.map (fun m =>
              if m.id = nid then
                { m with stats :=
                  { m.stats with
                    opened := m.stats.opened + 1
                    uniqueOpened :=
                      if !(eventExists st.tracking nid rid "open") then m.stats.uniqueOpened + 1
                      else m.stats.uniqueOpened } }
              else m),
            st.auditCount + 1⟩) := by
      simp only [trackOpenFunction, htruthy₁, htruthy₂, Bool.not_true, Bool.or_self,
        Bool.false_eq_true, if_false, trackOpenBody_ok st nid rid ua ip hany]
    rw [hfn]
    refine ⟨rfl, ?_⟩
    show (getNewsletter _ nid).map (fun m => m.stats) = _
    unfold getNewsletter
    rw [find?_map_id_stable _ (fun m => by by_cases h : m.id = nid <;> simp [h]) nid]
    show ((st.newsletters.find? (fun m => m.id = nid)).map _).map _ = _
    rw [show st.newsletters.find? (fun m => m.id = nid) = some n from hfind]
    simp only [Option.map_some']
    rw [if_pos (by simp [hpn])]
    by_cases he : eventExists st.tracking nid rid "open" <;> simp [he]
  · refine ⟨by decide, by decide, by decide, by decide⟩

/-- C3 witness: the general counting theorem applied at a concrete state
holding one prior open event for the pair, so only `opened` increments. -/
theorem trackOpen_counts_witness :
    (trackOpenFunction noFailures (some "n1") (some "r1") "u" "i"
        ⟨[⟨"n1", "r1", "", "open", none, "u", "i"⟩],
         [⟨"n1", "S", .sent, "c", [], "", none, some 0, ⟨0, 1, 1, 0, 0, 0⟩, 0⟩], 1⟩).2.tracking
      = [⟨"n1", "r1", "", "open", none, "u", "i"⟩, ⟨"n1", "r1", "", "open", none, "u", "i"⟩]
    ∧ getStats (trackOpenFunction noFailures (some "n1") (some "r1") "u" "i"
        ⟨[⟨"n1", "r1", "", "open", none, "u", "i"⟩],
         [⟨"n1", "S", .sent, "c", [], "", none, some 0, ⟨0, 1, 1, 0, 0, 0⟩, 0⟩], 1⟩).2 "n1"
      = some ⟨0, 2, 1, 0, 0, 0⟩ := by
  have h := trackOpen_counts.1
    ⟨[⟨"n1", "r1", "", "open", none, "u", "i"⟩],
     [⟨"n1", "S", .sent, "c", [], "", none, some 0, ⟨0, 1, 1, 0, 0, 0⟩, 0⟩], 1⟩
    "n1" "r1" "u" "i"
    ⟨"n1", "S", .sent, "c", [], "", none, some 0, ⟨0, 1, 1, 0, 0, 0⟩, 0⟩
    (by decide) (by decide) (by decide)
  exact ⟨h.1, by rw [h.2]; decide⟩

/-- C4: a `trackOpen` request missing `nid` or `rid` answers
`400 Missing parameters` with the store untouched; any request with both
parameters answers `200` with the fixed pixel bytes, whatever combination
of the four tracking-write steps throws. -/
theorem trackOpen_response (ff : TrackFailures) (nid? rid? : Option String) (ua ip : String)
    (st : TrackState) :
    (truthyParam nid? = false ∨ truthyParam rid? = false →
      trackOpenFunction ff nid? rid? ua ip st = (⟨400, none, .text "Missing parameters"⟩, st))
    ∧ (truthyParam nid? = true → truthyParam rid? = true →
      (trackOpenFunction ff nid? rid? ua ip st).1.status = 200
      ∧ (trackOpenFunction ff nid? rid? ua ip st).1.body = .bytes TRACKING_PIXEL) := by
  constructor
  · intro h
    have hcond : (!truthyParam nid? || !truthyParam rid?) = true := by
      rcases h with h | h <;> simp [h]
    simp [trackOpenFunction, hcond]
  · intro h₁ h₂
    cases nid? with
    | none => exact absurd h₁ (by simp [truthyParam])
    | some nid =>
      cases rid? with
      | none => exact absurd h₂ (by simp [truthyParam])
      | some rid =>
        have hcond : (!truthyParam (some nid) || !truthyParam (some rid)) = false := by
          simp [h₁, h₂]
        simp only [trackOpenFunction, hcond, Bool.false_eq_true, if_false]
        cases trackOpenBody ff nid rid ua ip st with
        | ok st' => exact ⟨rfl, rfl⟩
        | error st' => exact ⟨rfl, rfl⟩

/-- C4 witness: with every write step throwing, a request with both
parameters still gets the pixel with status 200, and a request missing
`nid` gets 400 with no state change. -/
theorem trackOpen_response_witness :
    trackOpenFunction ⟨true, true, true, true⟩ none (some "r1") "" "" ⟨[], [], 0⟩
      = (⟨400, none, .text "Missing parameters"⟩, ⟨[], [], 0⟩)
    ∧ (trackOpenFunction ⟨true, true, true, true⟩ (some "n1") (some "r1") "" "" ⟨[], [], 0⟩).1.status
      = 200
    ∧ (trackOpenFunction ⟨true, true, true, true⟩ (some "n1") (some "r1") "" "" ⟨[], [], 0⟩).1.body
      = .bytes TRACKING_PIXEL :=
  ⟨(trackOpen_response ⟨true, true, true, true⟩ none (some "r1") "" "" ⟨[], [], 0⟩).1
      (Or.inl (by decide)),
   ((trackOpen_response ⟨true, true, true, true⟩ (some "n1") (some "r1") "" "" ⟨[], [], 0⟩).2
      (by decide) (by decide)).1,
   ((trackOpen_response ⟨true, true, true, true⟩ (some "n1") (some "r1") "" "" ⟨[], [], 0⟩).2
      (by decide) (by decide)).2⟩

/-! ## Transmission orchestrator (sendNewsletter.ts)

`updateNewsletterStatus` writes `status` and `updatedAt`, plus `sentAt`
when the new status is Sent and the stats block when supplied. Firestore's
`update` on a missing document throws; the only caller that can hit that
(the catch-all rollback on a NotFound error) swallows the exception, so
the list-map rendering (a no-op on a missing id) is observationally
faithful. -/

def applyStatusUpdate (now : Nat) (status : NewsletterStatus) (stats : Option Stats)
    (n : Newsletter) : Newsletter :=
  { n with
    status := status
    updatedAt := now
    sentAt := if status = .sent then some now else n.sentAt
    stats := stats.getD n.stats }

def updateNewsletterStatus (now : Nat) (nid : String) (status : NewsletterStatus)
    (stats : Option Stats) (ns : List Newsletter) : List Newsletter :=
  ns.map (fun n => if n.id = nid then applyStatusUpdate now status stats n else n)

inductive ErrCode where
  | unauthenticated
  | invalidArgument
  | failedPrecondition
  | notFound
  | internal
deriving DecidableEq, Repr

inductive SendOutcome where
  | ok (success : Bool) (message : String) (total sentN failed : Nat)
      (errors : List (String × String))
  | err (code : ErrCode) (msg : String)
deriving DecidableEq, Repr

structure SendCtx where
  authed : Bool
  emailConfigValid : Bool
  deliver : Recipient → Option String
  now : Nat

/-- `sendNewsletterFunction` (the callable "Send Now" trigger). Every
`HttpsError` thrown inside the `try` goes through the catch block, which
logs and then rewrites the newsletter status to Draft before rethrowing. -/
def sendNewsletterFunction (ctx : SendCtx) (st : Store) (newsletterId? : Option String) :
    SendOutcome × Store :=
  if !ctx.authed then
    (.err .unauthenticated "User must be authenticated to send newsletters", st)
  else
    match newsletterId? with
    | none => (.err .invalidArgument "Newsletter ID is required", st)
    | some nid =>
      let caught := fun (st' : Store) (code : ErrCode) (msg : String) =>
        (SendOutcome.err code msg,
         { st' with newsletters := updateNewsletterStatus ctx.now nid .draft none st'.newsletters })
      if !ctx.emailConfigValid then
        caught st .failedPrecondition "Email configuration is invalid. Please check SMTP settings."
      else
        match getNewsletter st.newsletters nid with
        | none => caught st .notFound ("Newsletter " ++ nid ++ " not found")
        | some newsletter =>
          if newsletter.status = .sent then
            caught st .failedPrecondition "Newsletter has already been sent"
          else
            let recipients := fetchRecipients st.groups newsletter.recipientGroupIds
            if recipients.isEmpty then
              caught st .failedPrecondition "No recipients found in selected groups"
            else
              let st₁ := { st with
                newsletters := updateNewsletterStatus ctx.now nid .sending none st.newsletters }
              let result := sendNewsletterEmails ctx.deliver newsletter recipients
              let st₂ := { st₁ with
                newsletters := updateNewsletterStatus ctx.now nid .sent
                  (some ⟨result.successCount, 0, 0, 0, 0, result.failureCount⟩) st₁.newsletters }
              (.ok result.success
                ("Newsletter sent to " ++ toString result.successCount ++ " of "
                  ++ toString result.totalRecipients ++ " recipients")
                result.totalRecipients result.successCount result.failureCount result.errors,
               st₂)

/-- A newsletter already in the Sent state, with final stats recorded. -/
def sentNewsletter : Newsletter :=
  ⟨"n1", "Subj", .sent, "cat", ["g1"], "<p>x</p>", none, some 10, ⟨5, 0, 0, 0, 0, 0⟩, 10⟩

def storeSent : Store :=
  ⟨[sentNewsletter], [⟨"g1", "G", [⟨"r1", "a@x.com", none, none⟩]⟩]⟩

def ctxOk : SendCtx := ⟨true, true, fun _ => none, 99⟩

/-- C1 (code bug evaluation): sending an already-Sent newsletter does fail
with the AlreadySent precondition error, but the catch-all rollback then
rewrites the record: status becomes Draft and `updatedAt` is refreshed, so
the record is **not** left unchanged and its status does not stay Sent. -/
theorem sendNewsletter_alreadySent_resets_to_draft :
    (sendNewsletterFunction ctxOk storeSent (some "n1")).1
      = .err .failedPrecondition "Newsletter has already been sent"
    ∧ (getNewsletter (sendNewsletterFunction ctxOk storeSent (some "n1")).2.newsletters "n1").map
        (fun n => n.status) = some .draft
    ∧ (getNewsletter (sendNewsletterFunction ctxOk storeSent (some "n1")).2.newsletters "n1").map
        (fun n => n.updatedAt) = some 99
    ∧ sentNewsletter.status = .sent := by
  refine ⟨by decide, by decide, by decide, by decide⟩

/-! ## Scheduler (scheduledNewsletters.ts)

The tick queries `status = Scheduled AND scheduledAt <= now`, then
processes each due newsletter inside its own try/catch: a throw increments
the error counter and writes the status back to Scheduled; a successful
path writes Sending, dispatches, then writes Sent with stats; a due
newsletter whose groups resolve to no recipients is skipped (`continue`)
before any write. Throws are injected per newsletter id: `early` models
`fetchRecipients` throwing (before any write), `late` models a throw after
the Sending write. -/

inductive SchedFail where
  | early
  | late
deriving DecidableEq, Repr

structure SchedCtx where
  now : Nat
  deliver : Recipient → Option String
  failAt : String → Option SchedFail

def isDue (now : Nat) (n : Newsletter) : Bool :=
  n.status = .scheduled &&
    (match n.scheduledAt with
     | some t => t ≤ now
     | none => false)

def dueList (now : Nat) (ns : List Newsletter) : List Newsletter := ns.filter (isDue now)

inductive ItemResult where
  | sentOk
  | skipped
  | failed
deriving DecidableEq, Repr

def processDueNewsletter (ctx : SchedCtx) (groups : List RecipientGroup)
    (ns : List Newsletter) (item : Newsletter) : ItemResult × List Newsletter :=
  match ctx.failAt item.id with
  | some .early =>
    (.failed, updateNewsletterStatus ctx.now item.id .scheduled none ns)
  | some .late =>
    (.failed, updateNewsletterStatus ctx.now item.id .scheduled none
      (updateNewsletterStatus ctx.now item.id .sending none ns))
  | none =>
    let recipients := fetchRecipients groups item.recipientGroupIds
    if recipients.isEmpty then (.skipped, ns)
    else
      let ns₁ := updateNewsletterStatus ctx.now item.id .sending none ns
      let result := sendNewsletterEmails ctx.deliver item recipients
      (.sentOk, updateNewsletterStatus ctx.now item.id .sent
        (some ⟨result.successCount, 0, 0, 0, 0, result.failureCount⟩) ns₁)

structure SchedSummary where
  newslettersFound : Nat
  newslettersSent : Nat
  errors : Nat
deriving DecidableEq, Repr

def schedLoop (ctx : SchedCtx) (groups : List RecipientGroup) :
    List Newsletter → List Newsletter → Nat × Nat × List Newsletter
  | [], ns => (0, 0, ns)
  | item :: rest, ns =>
    let p := processDueNewsletter ctx groups ns item
    let t := schedLoop ctx groups rest p.2
    ((match p.1 with
      | .sentOk => t.1 + 1
      | _ => t.1),
     (match p.1 with
      | .failed => t.2.1 + 1
      | _ => t.2.1),
     t.2.2)

def scheduledNewslettersFunction (ctx : SchedCtx) (st : Store) : SchedSummary × Store :=
  let due := dueList ctx.now st.newsletters
  if due.isEmpty then (⟨0, 0, 0⟩, st)
  else
    let out := schedLoop ctx st.groups due st.newsletters
    (⟨due.length, out.1, out.2.1⟩, { st with newsletters := out.2.2 })

/-! ### Scheduler lemmas -/

theorem getNewsletter_update_self (now : Nat) (nid : String) (status : NewsletterStatus)
    (stats : Option Stats) (ns : List Newsletter) :
    getNewsletter (updateNewsletterStatus now nid status stats ns) nid
      = (getNewsletter ns nid).map (applyStatusUpdate now status stats) := by
  unfold getNewsletter updateNewsletterStatus
  rw [find?_map_id_stable _ (fun m => by by_cases h : m.id = nid <;> simp [h, applyStatusUpdate])
    nid]
  cases h : ns.find? (fun n => n.id = nid) with
  | none => rfl
  | some m =>
    have hm : m.id = nid := by
      have := List.find?_some h
      simpa using this
    simp [hm]

theorem getNewsletter_update_other (now : Nat) (nid mid : String) (status : NewsletterStatus)
    (stats : Option Stats) (ns : List Newsletter) (hne : mid ≠ nid) :
    getNewsletter (updateNewsletterStatus now nid status stats ns) mid
      = getNewsletter ns mid := by
  unfold getNewsletter updateNewsletterStatus
  rw [find?_map_id_stable _ (fun m => by by_cases h : m.id = nid <;> simp [h, applyStatusUpdate])
    mid]
  cases h : ns.find? (fun n => n.id = mid) with
  | none => rfl
  | some m =>
    have hm : m.id = mid := by
      have := List.find?_some h
      simpa using this
    simp [hm, hne]

theorem processDue_other (ctx : SchedCtx) (groups : List RecipientGroup)
    (ns : List Newsletter) (item : Newsletter) (mid : String) (hne : mid ≠ item.id) :
    getNewsletter (processDueNewsletter ctx groups ns item).2 mid = getNewsletter ns mid := by
  unfold processDueNewsletter
  cases hf : ctx.failAt item.id with
  | none =>
    by_cases hr : (fetchRecipients groups item.recipientGroupIds).isEmpty
    · simp [hr]
    · simp only [hr, Bool.false_eq_true, if_false]
      rw [getNewsletter_update_other _ _ _ _ _ _ hne, getNewsletter_update_other _ _ _ _ _ _ hne]
  | some fp =>
    cases fp with
    | early => exact getNewsletter_update_other _ _ _ _ _ _ hne
    | late =>
      rw [getNewsletter_update_other _ _ _ _ _ _ hne, getNewsletter_update_other _ _ _ _ _ _ hne]

/-- The per-item effect on the item's own record, as a function of that
record alone (the dispatch outcome depends only on the snapshot `item` and
the groups, not on the evolving newsletters list). -/
def procSelf (ctx : SchedCtx) (groups : List RecipientGroup) (item : Newsletter) :
    Option Newsletter → Option Newsletter :=
  fun rec? =>
    match ctx.failAt item.id with
    | some .early => rec?.map (applyStatusUpdate ctx.now .scheduled none)
    | some .late =>
      (rec?.map (applyStatusUpdate ctx.now .sending none)).map
        (applyStatusUpdate ctx.now .scheduled none)
    | none =>
      if (fetchRecipients groups item.recipientGroupIds).isEmpty then rec?
      else
        (rec?.map (applyStatusUpdate ctx.now .sending none)).map
          (applyStatusUpdate ctx.now .sent
            (some ⟨(sendNewsletterEmails ctx.deliver item
                      (fetchRecipients groups item.recipientGroupIds)).successCount,
                   0, 0, 0, 0,
                   (sendNewsletterEmails ctx.deliver item
                      (fetchRecipients groups item.recipientGroupIds)).failureCount⟩))

theorem processDue_self (ctx : SchedCtx) (groups : List RecipientGroup)
    (ns : List Newsletter) (item : Newsletter) :
    getNewsletter (processDueNewsletter ctx groups ns item).2 item.id
      = procSelf ctx groups item (getNewsletter ns item.id) := by
  unfold processDueNewsletter procSelf
  cases hf : ctx.failAt item.id with
  | none =>
    by_cases hr : (fetchRecipients groups item.recipientGroupIds).isEmpty
    · simp [hr]
    · simp only [hr, Bool.false_eq_true, if_false]
      rw [getNewsletter_update_self, getNewsletter_update_self]
  | some fp =>
    cases fp with
    | early => exact getNewsletter_update_self _ _ _ _ _
    | late => rw [getNewsletter_update_self, getNewsletter_update_self]

theorem schedLoop_untouched (ctx : SchedCtx) (groups : List RecipientGroup) (mid : String) :
    ∀ (items : List Newsletter) (ns : List Newsletter), (∀ x ∈ items, x.id ≠ mid) →
      getNewsletter (schedLoop ctx groups items ns).2.2 mid = getNewsletter ns mid := by
  intro items
  induction items with
  | nil => exact fun ns _ => rfl
  | cons item rest ih =>
    intro ns hne
    show getNewsletter (schedLoop ctx groups rest (processDueNewsletter ctx groups ns item).2).2.2 mid
      = getNewsletter ns mid
    rw [ih _ (fun x hx => hne x (List.mem_cons_of_mem _ hx)),
      processDue_other ctx groups ns item mid (fun h => hne item (List.mem_cons_self _ _) h.symm)]

theorem schedLoop_getNewsletter (ctx : SchedCtx) (groups : List RecipientGroup) :
    ∀ (items : List Newsletter) (ns : List Newsletter) (m : Newsletter), m ∈ items →
      (items.map (fun x => x.id)).Nodup →
      getNewsletter (schedLoop ctx groups items ns).2.2 m.id
        = procSelf ctx groups m (getNewsletter ns m.id) := by
  intro items
  induction items with
  | nil => exact fun ns m hm _ => absurd hm (List.not_mem_nil m)
  | cons item rest ih =>
    intro ns m hm hnodup
    rw [List.map_cons, List.nodup_cons] at hnodup
    show getNewsletter (schedLoop ctx groups rest (processDueNewsletter ctx groups ns item).2).2.2 m.id
      = _
    rcases List.mem_cons.mp hm with hm | hm
    · subst hm
      rw [schedLoop_untouched ctx groups m.id rest _
        (fun x hx h => hnodup.1 (h ▸ List.mem_map_of_mem (fun y => y.id) hx)),
        processDue_self]
    · have hne : m.id ≠ item.id := by
        intro h
        exact hnodup.1 (h ▸ List.mem_map_of_mem (fun y => y.id) hm)
      rw [ih _ m hm hnodup.2, processDue_other ctx groups ns item m.id hne]

theorem find?_id_of_nodup :
    ∀ ns : List Newsletter, (ns.map (fun x => x.id)).Nodup → ∀ n ∈ ns,
      getNewsletter ns n.id = some n := by
  intro ns
  induction ns with
  | nil => exact fun _ n hn => absurd hn (List.not_mem_nil n)
  | cons x rest ih =>
    intro hnodup n hn
    rw [List.map_cons, List.nodup_cons] at hnodup
    by_cases hx : x.id = n.id
    · have hxn : n = x := by
        rcases List.mem_cons.mp hn with h | h
        · exact h
        · exact absurd (hx ▸ List.mem_map_of_mem (fun y => y.id) h) hnodup.1
      subst hxn
      unfold getNewsletter
      rw [List.find?_cons_of_pos _ (by simp)]
    · rcases List.mem_cons.mp hn with h | h
      · exact absurd (h ▸ rfl) hx
      · unfold getNewsletter
        rw [List.find?_cons_of_neg _ (by simp [hx])]
        exact ih hnodup.2 n h

theorem dueList_ids_nodup (now : Nat) (ns : List Newsletter)
    (h : (ns.map (fun x => x.id)).Nodup) :
    ((dueList now ns).map (fun x => x.id)).Nodup :=
  h.sublist (List.Sublist.map _ (List.filter_sublist ns))

theorem scheduledTick_newsletters (ctx : SchedCtx) (st : Store)
    (hne : dueList ctx.now st.newsletters ≠ []) :
    (scheduledNewslettersFunction ctx st).2.newsletters
      = (schedLoop ctx st.groups (dueList ctx.now st.newsletters) st.newsletters).2.2 := by
  have hie : (dueList ctx.now st.newsletters).isEmpty = false := by
    cases h : (dueList ctx.now st.newsletters).isEmpty
    · rfl
    · exact absurd (List.isEmpty_iff.mp h) hne
  simp [scheduledNewslettersFunction, hie]

/-- C5: in a scheduler tick, a due newsletter whose send path throws
(before or after the Sending write) ends the tick with status Scheduled,
and the exception does not abort the other due newsletters: every other
due newsletter that processes cleanly with a non-empty recipient list
still ends the tick as Sent. -/
theorem scheduledTick_failure_isolated (ctx : SchedCtx) (st : Store) (n : Newsletter)
    (hnodup : (st.newsletters.map (fun x => x.id)).Nodup)
    (hdue : n ∈ dueList ctx.now st.newsletters)
    (hfail : (ctx.failAt n.id).isSome = true) :
    ((getNewsletter (scheduledNewslettersFunction ctx st).2.newsletters n.id).map
        (fun x => x.status) = some .scheduled)
    ∧ (∀ m ∈ dueList ctx.now st.newsletters, m.id ≠ n.id → ctx.failAt m.id = none →
        fetchRecipients st.groups m.recipientGroupIds ≠ [] →
        (getNewsletter (scheduledNewslettersFunction ctx st).2.newsletters m.id).map
          (fun x => x.status) = some .sent) := by
  have htick := scheduledTick_newsletters ctx st (List.ne_nil_of_mem hdue)
  have hdl_nodup := dueList_ids_nodup ctx.now st.newsletters hnodup
  constructor
  · have hpresent : getNewsletter st.newsletters n.id = some n :=
      find?_id_of_nodup st.newsletters hnodup n (List.mem_of_mem_filter hdue)
    rw [htick, schedLoop_getNewsletter ctx st.groups _ st.newsletters n hdue hdl_nodup, hpresent]
    obtain ⟨fp, hfp⟩ := Option.isSome_iff_exists.mp hfail
    cases fp with
    | early => simp [procSelf, hfp, applyStatusUpdate]
    | late => simp [procSelf, hfp, applyStatusUpdate]
  · intro m hm hmne hmnone hmrec
    have hpm : getNewsletter st.newsletters m.id = some m :=
      find?_id_of_nodup st.newsletters hnodup m (List.mem_of_mem_filter hm)
    rw [htick, schedLoop_getNewsletter ctx st.groups _ st.newsletters m hm hdl_nodup, hpm]
    have hre : (fetchRecipients st.groups m.recipientGroupIds).isEmpty = false := by
      cases h : (fetchRecipients st.groups m.recipientGroupIds).isEmpty
      · rfl
      · exact absurd (List.isEmpty_iff.mp h) hmrec
    simp [procSelf, hmnone, hre, applyStatusUpdate]

/-- C10 (implicit): a due newsletter whose groups resolve to zero
recipients is skipped before any write: its record is unchanged by the
tick (so its status stays Scheduled), and it is again in the due set of
the resulting store at any instant past its scheduled time. -/
theorem scheduledTick_zero_recipients_skipped (ctx : SchedCtx) (st : Store) (m : Newsletter)
    (hnodup : (st.newsletters.map (fun x => x.id)).Nodup)
    (hdue : m ∈ dueList ctx.now st.newsletters)
    (hok : ctx.failAt m.id = none)
    (hempty : fetchRecipients st.groups m.recipientGroupIds = []) :
    getNewsletter (scheduledNewslettersFunction ctx st).2.newsletters m.id = some m
    ∧ m.status = .scheduled
    ∧ ∀ now', (∃ t, m.scheduledAt = some t ∧ t ≤ now') →
        m ∈ dueList now' (scheduledNewslettersFunction ctx st).2.newsletters := by
  have htick := scheduledTick_newsletters ctx st (List.ne_nil_of_mem hdue)
  have hdl_nodup := dueList_ids_nodup ctx.now st.newsletters hnodup
  have hpresent : getNewsletter st.newsletters m.id = some m :=
    find?_id_of_nodup st.newsletters hnodup m (List.mem_of_mem_filter hdue)
  have hunchanged : getNewsletter (scheduledNewslettersFunction ctx st).2.newsletters m.id
      = some m := by
    rw [htick, schedLoop_getNewsletter ctx st.groups _ st.newsletters m hdue hdl_nodup, hpresent]
    simp [procSelf, hok, hempty]
  have hdm : isDue ctx.now m = true := List.of_mem_filter hdue
  have hstatus : m.status = .scheduled := by
    have := hdm
    unfold isDue at this
    rw [Bool.and_eq_true] at this
    exact of_decide_eq_true this.1
  refine ⟨hunchanged, hstatus, ?_⟩
  intro now' ⟨t, ht, hle⟩
  refine List.mem_filter.mpr ⟨List.mem_of_find?_eq_some hunchanged, ?_⟩
  unfold isDue
  rw [Bool.and_eq_true]
  exact ⟨decide_eq_true hstatus, by rw [ht]; exact decide_eq_true hle⟩

/-- Concrete scheduler scenario: two due newsletters, the first one's send
path throws after the Sending write, the second processes cleanly. -/
def schedN1 : Newsletter :=
  ⟨"n1", "A", .scheduled, "c", ["g1"], "", some 0, none, ⟨0, 0, 0, 0, 0, 0⟩, 0⟩

def schedN2 : Newsletter :=
  ⟨"n2", "B", .scheduled, "c", ["g1"], "", some 0, none, ⟨0, 0, 0, 0, 0, 0⟩, 0⟩

def schedStore : Store :=
  ⟨[schedN1, schedN2], [⟨"g1", "G", [⟨"r1", "a@x.com", none, none⟩]⟩]⟩

def schedCtx1 : SchedCtx :=
  ⟨5, fun _ => none, fun nid => if nid = "n1" then some .late else none⟩

/-- C5 witness: in the concrete two-newsletter tick, the throwing
newsletter ends Scheduled while the other still ends Sent. -/
theorem scheduledTick_failure_isolated_witness :
    ((getNewsletter (scheduledNewslettersFunction schedCtx1 schedStore).2.newsletters
        "n1").map (fun x => x.status) = some .scheduled)
    ∧ ((getNewsletter (scheduledNewslettersFunction schedCtx1 schedStore).2.newsletters
        "n2").map (fun x => x.status) = some .sent) := by
  have h := scheduledTick_failure_isolated schedCtx1 schedStore schedN1
    (by decide) (by decide) (by decide)
  exact ⟨h.1, h.2 schedN2 (by decide) (by decide) (by decide) (by decide)⟩

/-- Concrete zero-recipient scenario: one due newsletter pointing at an
empty group. -/
def schedN3 : Newsletter :=
  ⟨"n3", "C", .scheduled, "c", ["gEmpty"], "", some 0, none, ⟨0, 0, 0, 0, 0, 0⟩, 0⟩

def schedStore3 : Store := ⟨[schedN3], [⟨"gEmpty", "G", []⟩]⟩

def schedCtx3 : SchedCtx := ⟨5, fun _ => none, fun _ => none⟩

/-- C10 witness: the zero-recipient newsletter survives the tick unchanged
and is still due at a later instant. -/
theorem scheduledTick_zero_recipients_skipped_witness :
    getNewsletter (scheduledNewslettersFunction schedCtx3 schedStore3).2.newsletters "n3"
      = some schedN3
    ∧ schedN3 ∈ dueList 7 (scheduledNewslettersFunction schedCtx3 schedStore3).2.newsletters := by
  have h := scheduledTick_zero_recipients_skipped schedCtx3 schedStore3 schedN3
    (by decide) (by decide) (by decide) (by decide)
  exact ⟨h.1, h.2.2 7 ⟨0, rfl, by omega⟩⟩

/-! ## Click-link rewriting (emailService.ts, `wrapLinksWithTracking`)

`html.replace(/href="([^"]+)"/g, (match, url) => ...)` is embedded as a
scanner over the character list: `scanHref` finds the leftmost regex match
(the literal `href="`, then one or more non-quote characters, then `"`),
exactly as the JS regex engine does (advancing one position when the
literal matches but the quoted part does not complete). The replacer keeps
the match when the url contains the substring `unsubscribe` or `track`
(`url.includes(...)`), otherwise substitutes the tracking-redirect URL
built from the base URL, the newsletter id, the recipient id and the
`encodeURIComponent`-encoded original url. The environment variable
`TRACKING_BASE_URL` is a parameter `base`; its default is the constant
below. -/

def TRACKING_BASE_URL : List Char :=
  "https://us-central1-newsletter-b104f.cloudfunctions.net".data

def notQuote (c : Char) : Bool := c != '"'

def hrefLit : List Char := ['h', 'r', 'e', 'f', '=', '"']

/-- Try the regex `href="([^"]+)"` at the head of `l`; on success return
the captured url and the remainder after the closing quote. -/
def tryMatch (l : List Char) : Option (List Char × List Char) :=
  if hrefLit.isPrefixOf l then
    match (l.drop 6).dropWhile notQuote with
    | '"' :: rest =>
      if ((l.drop 6).takeWhile notQuote).isEmpty then none
      else some ((l.drop 6).takeWhile notQuote, rest)
    | _ => none
  else none

/-- Leftmost match of `href="([^"]+)"` in `l`:
`some (pre, url, rest)` with `l = pre ++ href=" ++ url ++ " ++ rest`. -/
def scanHref : List Char → Option (List Char × List Char × List Char)
  | [] => none
  | c :: cs =>
    match tryMatch (c :: cs) with
    | some (u, rest) => some ([], u, rest)
    | none => (scanHref cs).map (fun q => (c :: q.1, q.2.1, q.2.2))

/-- JS `String.prototype.includes`. -/
def hasSub (pat : List Char) : List Char → Bool
  | [] => pat.isEmpty
  | c :: cs => pat.isPrefixOf (c :: cs) || hasSub pat cs

/-- `url.includes('unsubscribe') || url.includes('track')`. -/
def skipUrl (u : List Char) : Bool :=
  hasSub "unsubscribe".data u || hasSub "track".data u

/-- JS `encodeURIComponent` leaves alphanumerics and `-_.!~*'()`
unescaped. -/
def isUnreservedChar (c : Char) : Bool :=
  let n := c.toNat
  (65 ≤ n && n ≤ 90) || (97 ≤ n && n ≤ 122) || (48 ≤ n && n ≤ 57) ||
    n == 45 || n == 95 || n == 46 || n == 33 || n == 126 || n == 42 ||
    n == 39 || n == 40 || n == 41

def hexDigit (n : Nat) : Char :=
  List.getD ['0', '1', '2', '3', '4', '5', '6', '7', '8', '9', 'A', 'B', 'C', 'D', 'E', 'F'] n '0'

def percentByte (b : Nat) : List Char := ['%', hexDigit (b / 16), hexDigit (b % 16)]

def utf8Bytes (c : Char) : List Nat :=
  let n := c.toNat
  if n < 128 then [n]
  else if n < 2048 then [192 + n / 64, 128 + n % 64]
  else if n < 65536 then [224 + n / 4096, 128 + (n / 64) % 64, 128 + n % 64]
  else [240 + n / 262144, 128 + (n / 4096) % 64, 128 + (n / 64) % 64, 128 + n % 64]

def encodeChar (c : Char) : List Char :=
  if isUnreservedChar c then [c]
  else ((utf8Bytes c).map percentByte).flatten

def encodeURIComponent (u : List Char) : List Char := (u.map encodeChar).flatten

def trackClickPath : List Char := "/trackClickFunction?nid=".data

def trackingUrl (base n r u : List Char) : List Char :=
  base ++ trackClickPath ++ n ++ "&rid=".data ++ r ++ "&url=".data ++ encodeURIComponent u

/-- The replacer body applied to one captured url. -/
def replaceMatch (base n r : List Char) (u : List Char) : List Char :=
  if skipUrl u then hrefLit ++ u ++ ['"']
  else hrefLit ++ trackingUrl base n r u ++ ['"']

def wrapAux (base n r : List Char) : Nat → List Char → List Char
  | 0, html => html
  | fuel + 1, html =>
    match scanHref html with
    | none => html
    | some (p, u, rest) => p ++ replaceMatch base n r u ++ wrapAux base n r fuel rest

def wrapLinksWithTracking (base n r : List Char) (html : List Char) : List Char :=
  wrapAux base n r html.length html

/-! ### Scanner lemmas -/

theorem takeWhile_all_append (p : Char → Bool) :
    ∀ (u : List Char), (∀ c ∈ u, p c = true) → ∀ (x : Char) (z : List Char), p x = false →
      (u ++ x :: z).takeWhile p = u ∧ (u ++ x :: z).dropWhile p = x :: z := by
  intro u
  induction u with
  | nil =>
    intro _ x z hx
    constructor
    · show (x :: z).takeWhile p = []
      rw [List.takeWhile_cons, hx]
      simp
    · show (x :: z).dropWhile p = x :: z
      rw [List.dropWhile_cons, hx]
      simp
  | cons c cs ih =>
    intro hall x z hx
    have hc : p c = true := hall c (List.mem_cons_self _ _)
    obtain ⟨iht, ihd⟩ := ih (fun d hd => hall d (List.mem_cons_of_mem _ hd)) x z hx
    constructor
    · show ((c :: (cs ++ x :: z)).takeWhile p) = c :: cs
      rw [List.takeWhile_cons, hc]
      simp [iht]
    · show ((c :: (cs ++ x :: z)).dropWhile p) = x :: z
      rw [List.dropWhile_cons, hc]
      simp [ihd]

theorem isPrefixOf_append_self (l t : List Char) : l.isPrefixOf (l ++ t) = true :=
  List.isPrefixOf_iff_prefix.mpr ⟨t, rfl⟩

theorem tryMatch_complete (u rest : List Char) (hu : u ≠ [])
    (hq : ∀ c ∈ u, notQuote c = true) :
    tryMatch (hrefLit ++ u ++ '"' :: rest) = some (u, rest) := by
  have hassoc : hrefLit ++ u ++ '"' :: rest = hrefLit ++ (u ++ '"' :: rest) := by
    simp [List.append_assoc]
  have hpre : hrefLit.isPrefixOf (hrefLit ++ u ++ '"' :: rest) = true := by
    rw [hassoc]
    exact isPrefixOf_append_self _ _
  have hdrop : (hrefLit ++ u ++ '"' :: rest).drop 6 = u ++ '"' :: rest := by
    rw [hassoc, show (6 : Nat) = hrefLit.length from rfl, List.drop_left]
  obtain ⟨htw, hdw⟩ := takeWhile_all_append notQuote u hq '"' rest (by decide)
  have hie : u.isEmpty = false := by
    cases u with
    | nil => exact absurd rfl hu
    | cons _ _ => rfl
  unfold tryMatch
  rw [if_pos hpre, hdrop, hdw]
  show (if ((hrefLit ++ u ++ '"' :: rest).drop 6).takeWhile notQuote |>.isEmpty then none
        else some (((hrefLit ++ u ++ '"' :: rest).drop 6).takeWhile notQuote, rest))
      = some (u, rest)
  rw [hdrop, htw, if_neg (by simp [hie])]

theorem tryMatch_sound (l u rest : List Char) (h : tryMatch l = some (u, rest)) :
    l = hrefLit ++ u ++ '"' :: rest ∧ u ≠ [] ∧ ∀ c ∈ u, notQuote c = true := by
  unfold tryMatch at h
  by_cases hpre : hrefLit.isPrefixOf l = true
  · rw [if_pos hpre] at h
    obtain ⟨t, ht⟩ := List.isPrefixOf_iff_prefix.mp hpre
    have hdrop : l.drop 6 = t := by
      rw [← ht, show (6 : Nat) = hrefLit.length from rfl, List.drop_left]
    rw [hdrop] at h
    split at h
    next rest' heq =>
      split at h
      next => exact absurd h (by simp)
      next hne =>
        have hpair := Option.some.inj h
        have hu' : t.takeWhile notQuote = u := congrArg Prod.fst hpair
        have hr' : rest' = rest := congrArg Prod.snd hpair
        have htdec : t = u ++ '"' :: rest := by
          conv_lhs => rw [← List.takeWhile_append_dropWhile notQuote t]
          rw [hu', heq, hr']
        refine ⟨?_, ?_, ?_⟩
        · rw [← ht, htdec]
          simp [List.append_assoc]
        · intro hnil
          rw [hu', hnil] at hne
          exact hne rfl
        · intro c hc
          rw [← hu'] at hc
          exact List.mem_takeWhile_imp hc
    next => exact absurd h (by simp)
  · rw [if_neg hpre] at h
    exact absurd h (by simp)

theorem scanHref_cons (c : Char) (cs : List Char) :
    scanHref (c :: cs) =
      match tryMatch (c :: cs) with
      | some (u, rest) => some ([], u, rest)
      | none => (scanHref cs).map (fun q => (c :: q.1, q.2.1, q.2.2)) := rfl

theorem scanHref_of_tryMatch_some (l u rest : List Char) (h : tryMatch l = some (u, rest)) :
    scanHref l = some ([], u, rest) := by
  cases l with
  | nil => exact absurd h (by rw [show tryMatch [] = none from rfl]; simp)
  | cons c cs => rw [scanHref_cons, h]

theorem scanHref_of_tryMatch_none (c : Char) (cs : List Char) (h : tryMatch (c :: cs) = none) :
    scanHref (c :: cs) = (scanHref cs).map (fun q => (c :: q.1, q.2.1, q.2.2)) := by
  rw [scanHref_cons, h]

theorem scanHref_prefix_match (u rest : List Char) (hu : u ≠ [])
    (hq : ∀ c ∈ u, notQuote c = true) :
    scanHref (hrefLit ++ u ++ '"' :: rest) = some ([], u, rest) :=
  scanHref_of_tryMatch_some _ _ _ (tryMatch_complete u rest hu hq)

theorem scanHref_decomp :
    ∀ (l p u rest : List Char), scanHref l = some (p, u, rest) →
      l = p ++ hrefLit ++ u ++ '"' :: rest ∧ u ≠ [] ∧ ∀ c ∈ u, notQuote c = true := by
  intro l
  induction l with
  | nil => intro p u rest h; exact absurd h (by rw [show scanHref [] = none from rfl]; simp)
  | cons c cs ih =>
    intro p u rest h
    cases htm : tryMatch (c :: cs) with
    | some q =>
      obtain ⟨u₀, r₀⟩ := q
      rw [scanHref_cons, htm] at h
      have hpair := Option.some.inj h
      have hp : [] = p := congrArg (fun x => x.1) hpair
      have hu : u₀ = u := congrArg (fun x => x.2.1) hpair
      have hr : r₀ = rest := congrArg (fun x => x.2.2) hpair
      subst hp; subst hu; subst hr
      obtain ⟨hl, hne, hq⟩ := tryMatch_sound _ _ _ htm
      refine ⟨?_, hne, hq⟩
      rw [hl]
      simp
    | none =>
      rw [scanHref_of_tryMatch_none c cs htm] at h
      cases hs : scanHref cs with
      | none => rw [hs] at h; exact absurd h (by simp)
      | some q =>
        obtain ⟨p', u', r'⟩ := q
        rw [hs] at h
        simp only [Option.map_some'] at h
        have hpair := Option.some.inj h
        obtain ⟨hl, hne, hq⟩ := ih p' u' r' hs
        have hp : p = c :: p' := (congrArg (fun x => x.1) hpair).symm
        have hu : u = u' := (congrArg (fun x => x.2.1) hpair).symm
        have hr : rest = r' := (congrArg (fun x => x.2.2) hpair).symm
        subst hp; subst hu; subst hr
        refine ⟨?_, hne, hq⟩
        rw [hl]
        simp

theorem scanHref_rest_lt (l p u rest : List Char) (h : scanHref l = some (p, u, rest)) :
    rest.length < l.length := by
  obtain ⟨hl, _, _⟩ := scanHref_decomp l p u rest h
  rw [hl]
  simp only [List.length_append, List.length_cons, hrefLit]
  simp
  omega

/-- Scanning a quote-terminated extension of `D₀` takes a quote-free
prefix of `D₀`; the leftover of `D₀` is empty or starts with a quote. -/
theorem takeWhile_fac :
    ∀ (D₀ z : List Char), ∃ E, D₀ = (D₀ ++ '"' :: z).takeWhile notQuote ++ E
      ∧ (E = [] ∨ ∃ E', E = '"' :: E') := by
  intro D₀ z
  induction D₀ with
  | nil =>
    refine ⟨[], ?_, Or.inl rfl⟩
    simp [List.takeWhile_cons, notQuote]
  | cons d D' ih =>
    by_cases hd : notQuote d = true
    · obtain ⟨E, hfac, hcase⟩ := ih
      refine ⟨E, ?_, hcase⟩
      show d :: D' = ((d :: D') ++ '"' :: z).takeWhile notQuote ++ E
      rw [List.cons_append, List.takeWhile_cons, hd]
      simp only [if_true, List.cons_append]
      exact congrArg (fun x => d :: x) hfac
    · have hd' : d = '"' := by
        simp [notQuote] at hd
        exact hd
      refine ⟨d :: D', ?_, Or.inr ⟨D', by rw [hd']⟩⟩
      show d :: D' = ((d :: D') ++ '"' :: z).takeWhile notQuote ++ (d :: D')
      rw [List.cons_append, List.takeWhile_cons]
      simp [hd]

/-- The regex fails at a position iff it fails there however the text after
the successfully closing quote continues: a failed attempt on
`q ++ href=" ++ u ++ " ++ rest` stays failed when the part after
`q ++ href="` is replaced by another quote-free url and tail. -/
theorem tryMatch_transfer (q u rest v X : List Char) (hqne : q ≠ [])
    (hv : v ≠ []) (hvq : ∀ c ∈ v, notQuote c = true)
    (hold : tryMatch (q ++ hrefLit ++ u ++ '"' :: rest) = none) :
    tryMatch (q ++ hrefLit ++ v ++ '"' :: X) = none := by
  cases hnew : tryMatch (q ++ hrefLit ++ v ++ '"' :: X) with
  | none => rfl
  | some pr =>
    obtain ⟨w, Y⟩ := pr
    exfalso
    obtain ⟨hE, hwne, hwq⟩ := tryMatch_sound _ _ _ hnew
    have hpre1 : hrefLit <+: (q ++ hrefLit ++ v ++ '"' :: X) := by
      rw [hE]
      exact ⟨w ++ '"' :: Y, by simp [List.append_assoc]⟩
    have hpre2 : (q ++ hrefLit) <+: (q ++ hrefLit ++ v ++ '"' :: X) :=
      ⟨v ++ '"' :: X, by simp [List.append_assoc]⟩
    have hpre3 : hrefLit <+: (q ++ hrefLit) :=
      List.prefix_of_prefix_length_le hpre1 hpre2 (by simp [List.length_append])
    have hsplit : q ++ hrefLit = (q ++ ['h', 'r', 'e', 'f', '=']) ++ ['"'] := by
      simp [hrefLit]
    have hqlen : 1 ≤ q.length := by
      cases q with
      | nil => exact absurd rfl hqne
      | cons _ _ => simp
    have hpre4 : hrefLit <+: (q ++ ['h', 'r', 'e', 'f', '=']) := by
      refine List.prefix_of_prefix_length_le hpre3 ⟨['"'], hsplit.symm⟩ ?_
      simp only [List.length_append, hrefLit]
      simp
      omega
    obtain ⟨D₀, hD₀⟩ := hpre4
    have hA : q ++ hrefLit = hrefLit ++ (D₀ ++ ['"']) := by
      rw [hsplit, ← hD₀]
      simp [List.append_assoc]
    have hG : D₀ ++ '"' :: (v ++ '"' :: X) = w ++ '"' :: Y := by
      have h2 := hE
      rw [show q ++ hrefLit ++ v ++ '"' :: X = (q ++ hrefLit) ++ (v ++ '"' :: X) by
        simp [List.append_assoc], hA] at h2
      simp only [List.append_assoc, List.singleton_append, List.cons_append] at h2
      exact List.append_cancel_left h2
    have hwtake : (w ++ '"' :: Y).takeWhile notQuote = w :=
      (takeWhile_all_append notQuote w hwq '"' Y (by decide)).1
    have hw : (D₀ ++ '"' :: (v ++ '"' :: X)).takeWhile notQuote = w := by
      rw [hG, hwtake]
    obtain ⟨E, hDfac, hEcase⟩ := takeWhile_fac D₀ (v ++ '"' :: X)
    rw [hw] at hDfac
    rcases hEcase with hE0 | ⟨E', hE'⟩
    · rw [hE0, List.append_nil] at hDfac
      have hform : q ++ hrefLit ++ u ++ '"' :: rest
          = hrefLit ++ w ++ '"' :: (u ++ '"' :: rest) := by
        rw [show q ++ hrefLit ++ u ++ '"' :: rest = (q ++ hrefLit) ++ (u ++ '"' :: rest) by
          simp [List.append_assoc], hA, hDfac]
        simp [List.append_assoc]
      rw [hform, tryMatch_complete w (u ++ '"' :: rest) hwne hwq] at hold
      exact absurd hold (by simp)
    · rw [hE'] at hDfac
      have hform : q ++ hrefLit ++ u ++ '"' :: rest
          = hrefLit ++ w ++ '"' :: (E' ++ '"' :: (u ++ '"' :: rest)) := by
        rw [show q ++ hrefLit ++ u ++ '"' :: rest = (q ++ hrefLit) ++ (u ++ '"' :: rest) by
          simp [List.append_assoc], hA, hDfac]
        simp [List.append_assoc]
      rw [hform, tryMatch_complete w (E' ++ '"' :: (u ++ '"' :: rest)) hwne hwq] at hold
      exact absurd hold (by simp)

/-- The leftmost-match position is stable under replacing the matched url
and the tail: the scan walks the same failed positions through `p`. -/
theorem scanHref_shift :
    ∀ (p u rest v X : List Char),
      scanHref (p ++ hrefLit ++ u ++ '"' :: rest) = some (p, u, rest) →
      v ≠ [] → (∀ c ∈ v, notQuote c = true) →
      scanHref (p ++ hrefLit ++ v ++ '"' :: X) = some (p, v, X) := by
  intro p
  induction p with
  | nil =>
    intro u rest v X _ hv hvq
    simpa using scanHref_prefix_match v X hv hvq
  | cons c p' ih =>
    intro u rest v X h hv hvq
    have hsh_old : (c :: p') ++ hrefLit ++ u ++ '"' :: rest
        = c :: (p' ++ hrefLit ++ u ++ '"' :: rest) := by simp
    have hsh_new : (c :: p') ++ hrefLit ++ v ++ '"' :: X
        = c :: (p' ++ hrefLit ++ v ++ '"' :: X) := by simp
    rw [hsh_old] at h
    rw [hsh_new]
    cases htm : tryMatch (c :: (p' ++ hrefLit ++ u ++ '"' :: rest)) with
    | some pr =>
      obtain ⟨u₀, r₀⟩ := pr
      rw [scanHref_cons, htm] at h
      have hpair := Option.some.inj h
      have hnil : ([] : List Char) = c :: p' := congrArg (fun x => x.1) hpair
      exact absurd hnil (by simp)
    | none =>
      rw [scanHref_of_tryMatch_none _ _ htm] at h
      cases hs : scanHref (p' ++ hrefLit ++ u ++ '"' :: rest) with
      | none => rw [hs] at h; exact absurd h (by simp)
      | some q =>
        obtain ⟨p₀, u₀, r₀⟩ := q
        rw [hs] at h
        simp only [Option.map_some'] at h
        have hpair := Option.some.inj h
        have hp : p₀ = p' := by
          have hcp : c :: p₀ = c :: p' := congrArg (fun x => x.1) hpair
          injection hcp
        have hu : u₀ = u := congrArg (fun x => x.2.1) hpair
        have hr : r₀ = rest := congrArg (fun x => x.2.2) hpair
        rw [hp, hu, hr] at hs
        have htm' : tryMatch (c :: (p' ++ hrefLit ++ v ++ '"' :: X)) = none := by
          rw [← hsh_new]
          exact tryMatch_transfer (c :: p') u rest v X (by simp) hv hvq (hsh_old ▸ htm)
        rw [scanHref_of_tryMatch_none _ _ htm', ih u rest v X hs hv hvq]
        rfl

/-! ### Wrapping lemmas -/

theorem wrapAux_fuel (base n r : List Char) :
    ∀ f₁ f₂ html, html.length ≤ f₁ → html.length ≤ f₂ →
      wrapAux base n r f₁ html = wrapAux base n r f₂ html := by
  intro f₁
  induction f₁ with
  | zero =>
    intro f₂ html h₁ _
    have hnil : html = [] := List.length_eq_zero.mp (Nat.le_zero.mp h₁)
    subst hnil
    cases f₂ with
    | zero => rfl
    | succ g => rfl
  | succ f ih =>
    intro f₂ html h₁ h₂
    cases f₂ with
    | zero =>
      have hnil : html = [] := List.length_eq_zero.mp (Nat.le_zero.mp h₂)
      subst hnil
      rfl
    | succ g =>
      show (match scanHref html with
            | none => html
            | some (p, u, rest) => p ++ replaceMatch base n r u ++ wrapAux base n r f rest)
          = (match scanHref html with
            | none => html
            | some (p, u, rest) => p ++ replaceMatch base n r u ++ wrapAux base n r g rest)
      cases hscan : scanHref html with
      | none => rfl
      | some q =>
        obtain ⟨p, u, rest⟩ := q
        have hlt := scanHref_rest_lt html p u rest hscan
        show p ++ replaceMatch base n r u ++ wrapAux base n r f rest
          = p ++ replaceMatch base n r u ++ wrapAux base n r g rest
        rw [ih g rest (by omega) (by omega)]

theorem wrapLinks_nil (base n r : List Char) : wrapLinksWithTracking base n r [] = [] := rfl

theorem wrapLinks_none (base n r html : List Char) (h : scanHref html = none) :
    wrapLinksWithTracking base n r html = html := by
  unfold wrapLinksWithTracking
  cases hL : html.length with
  | zero => rfl
  | succ k =>
    show (match scanHref html with
          | none => html
          | some (p, u, rest) => p ++ replaceMatch base n r u ++ wrapAux base n r k rest)
        = html
    rw [h]

theorem wrapLinks_some (base n r html p u rest : List Char)
    (h : scanHref html = some (p, u, rest)) :
    wrapLinksWithTracking base n r html
      = p ++ replaceMatch base n r u ++ wrapLinksWithTracking base n r rest := by
  have hlt := scanHref_rest_lt html p u rest h
  unfold wrapLinksWithTracking
  cases hL : html.length with
  | zero => omega
  | succ k =>
    show (match scanHref html with
          | none => html
          | some (p, u, rest) => p ++ replaceMatch base n r u ++ wrapAux base n r k rest)
        = _
    rw [h]
    show p ++ replaceMatch base n r u ++ wrapAux base n r k rest = _
    rw [wrapAux_fuel base n r k rest.length rest (by omega) (Nat.le_refl _)]

/-! ### Quote-freeness and substring facts -/

theorem notQuote_all_iff (l : List Char) : (∀ c ∈ l, notQuote c = true) ↔ '"' ∉ l := by
  constructor
  · intro h hq
    have := h '"' hq
    simp [notQuote] at this
  · intro h c hc
    simp only [notQuote, bne_iff_ne, ne_eq]
    intro he
    exact h (he ▸ hc)

theorem hexDigit_ne_quote (n : Nat) : hexDigit n ≠ '"' := by
  unfold hexDigit
  by_cases h : n < 16
  · interval_cases n <;> decide
  · rw [List.getD_eq_default]
    · decide
    · simpa using Nat.le_of_not_lt h

theorem encodeChar_no_quote (c : Char) : ∀ x ∈ encodeChar c, x ≠ '"' := by
  intro x hx
  unfold encodeChar at hx
  by_cases hu : isUnreservedChar c = true
  · rw [if_pos hu] at hx
    have hxc : x = c := List.mem_singleton.mp hx
    subst hxc
    intro hq
    rw [hq] at hu
    exact absurd hu (by decide)
  · rw [if_neg hu] at hx
    obtain ⟨l, hl, hxl⟩ := List.mem_flatten.mp hx
    obtain ⟨b, _, hb⟩ := List.mem_map.mp hl
    rw [← hb] at hxl
    simp only [percentByte, List.mem_cons, List.not_mem_nil, or_false] at hxl
    rcases hxl with h | h | h
    · rw [h]; decide
    · rw [h]; exact hexDigit_ne_quote _
    · rw [h]; exact hexDigit_ne_quote _

theorem encodeURIComponent_no_quote (u : List Char) : ∀ x ∈ encodeURIComponent u, x ≠ '"' := by
  intro x hx
  obtain ⟨l, hl, hxl⟩ := List.mem_flatten.mp hx
  obtain ⟨c, _, hc⟩ := List.mem_map.mp hl
  rw [← hc] at hxl
  exact encodeChar_no_quote c x hxl

theorem trackingUrl_no_quote (base n r u : List Char) (hb : '"' ∉ base) (hn : '"' ∉ n)
    (hr : '"' ∉ r) : ∀ c ∈ trackingUrl base n r u, notQuote c = true := by
  intro c hc
  have hcq : c ≠ '"' := by
    unfold trackingUrl at hc
    simp only [List.append_assoc, List.mem_append] at hc
    rcases hc with hc | hc | hc | hc | hc | hc | hc
    · intro h; exact hb (h ▸ hc)
    · intro h; rw [h] at hc; exact absurd hc (by decide)
    · intro h; exact hn (h ▸ hc)
    · intro h; rw [h] at hc; exact absurd hc (by decide)
    · intro h; exact hr (h ▸ hc)
    · intro h; rw [h] at hc; exact absurd hc (by decide)
    · exact encodeURIComponent_no_quote u c hc
  simp only [notQuote, bne_iff_ne, ne_eq]
  exact hcq

theorem trackingUrl_ne_nil (base n r u : List Char) : trackingUrl base n r u ≠ [] := by
  intro h
  have hlen := congrArg List.length h
  have h24 : trackClickPath.length = 24 := by decide
  simp only [trackingUrl, List.length_append, List.length_nil, h24] at hlen
  omega

theorem hasSub_of_decomp : ∀ (a pat b : List Char), hasSub pat (a ++ pat ++ b) = true := by
  intro a
  induction a with
  | nil =>
    intro pat b
    simp only [List.nil_append]
    cases hpb : pat ++ b with
    | nil =>
      have hpat : pat = [] := (List.append_eq_nil.mp hpb).1
      rw [hpat]
      rfl
    | cons c cs =>
      have h1 : pat.isPrefixOf (c :: cs) = true := by
        rw [← hpb]
        exact isPrefixOf_append_self _ _
      show (pat.isPrefixOf (c :: cs) || hasSub pat cs) = true
      rw [h1, Bool.true_or]
  | cons x a' ih =>
    intro pat b
    rw [show (x :: a') ++ pat ++ b = x :: (a' ++ pat ++ b) by simp]
    show (pat.isPrefixOf (x :: (a' ++ pat ++ b)) || hasSub pat (a' ++ pat ++ b)) = true
    rw [ih pat b, Bool.or_true]

theorem skipUrl_trackingUrl (base n r u : List Char) :
    skipUrl (trackingUrl base n r u) = true := by
  have hsplit : trackingUrl base n r u
      = (base ++ ['/']) ++ "track".data
        ++ ("ClickFunction?nid=".data ++ n ++ "&rid=".data ++ r ++ "&url=".data
            ++ encodeURIComponent u) := by
    unfold trackingUrl trackClickPath
    rw [show "/trackClickFunction?nid=".data = ['/'] ++ "track".data ++ "ClickFunction?nid=".data
      from by decide]
    simp [List.append_assoc]
  unfold skipUrl
  rw [hsplit, hasSub_of_decomp, Bool.or_true]

/-- Spec-side reading of "already pointing at the tracking or unsubscribe
endpoints": the url starts with the tracking base URL followed by one of
the two tracking function paths or the unsubscribe path. Stated for
comparison with the code's substring test. -/
def specPointsAtEndpoint (base u : List Char) : Prop :=
  (base ++ "/trackOpenFunction".data).isPrefixOf u = true
  ∨ (base ++ "/trackClickFunction".data).isPrefixOf u = true
  ∨ (base ++ "/unsubscribe".data).isPrefixOf u = true

instance (base u : List Char) : Decidable (specPointsAtEndpoint base u) := by
  unfold specPointsAtEndpoint
  infer_instance

def nonEndpointUrl : List Char := "https://example.com/fast-track".data

/-- C8 counterexample: an href whose url does **not** point at the
tracking or unsubscribe endpoints is nevertheless left untouched, because
the code's test is `url.includes('track')`/`url.includes('unsubscribe')`
(substring anywhere), not "points at the endpoints". -/
theorem wrapLinks_keeps_nonendpoint_url :
    wrapLinksWithTracking TRACKING_BASE_URL "n1".data "r1".data
        (hrefLit ++ nonEndpointUrl ++ '"' :: [])
      = hrefLit ++ nonEndpointUrl ++ '"' :: []
    ∧ ¬ specPointsAtEndpoint TRACKING_BASE_URL nonEndpointUrl
    ∧ skipUrl nonEndpointUrl = true := by
  refine ⟨by decide, by decide, by decide⟩

/-- C8 (amended): in composition, the leftmost `href="url"` whose url does
not contain the substring `track` or `unsubscribe` is replaced by
`href="<tracking-redirect>"` where the redirect URL carries the newsletter
id, the recipient id and the URL-encoded original url; an href whose url
contains either substring (in particular one already pointing at the
tracking or unsubscribe endpoints) is left untouched; rewriting then
continues on the rest of the document. -/
theorem wrapLinks_rewrite_rule (base n r u post : List Char) (hu : u ≠ [])
    (hq : '"' ∉ u) :
    wrapLinksWithTracking base n r (hrefLit ++ u ++ '"' :: post)
      = (if skipUrl u then hrefLit ++ u ++ ['"']
         else hrefLit ++ trackingUrl base n r u ++ ['"'])
        ++ wrapLinksWithTracking base n r post := by
  have hscan := scanHref_prefix_match u post hu ((notQuote_all_iff u).mpr hq)
  rw [wrapLinks_some base n r _ [] u post hscan]
  simp only [List.nil_append]
  rfl

/-- C8 witness: the rewrite rule applied to a concrete single-link page
whose url needs encoding. -/
theorem wrapLinks_rewrite_rule_witness :
    "https://ex.am/a b".data ≠ []
    ∧ '"' ∉ "https://ex.am/a b".data
    ∧ wrapLinksWithTracking TRACKING_BASE_URL "n1".data "r1".data
        (hrefLit ++ "https://ex.am/a b".data ++ '"' :: [])
      = (if skipUrl "https://ex.am/a b".data
         then hrefLit ++ "https://ex.am/a b".data ++ ['"']
         else hrefLit
            ++ trackingUrl TRACKING_BASE_URL "n1".data "r1".data "https://ex.am/a b".data
            ++ ['"'])
        ++ wrapLinksWithTracking TRACKING_BASE_URL "n1".data "r1".data [] :=
  ⟨by decide, by decide,
   wrapLinks_rewrite_rule TRACKING_BASE_URL "n1".data "r1".data "https://ex.am/a b".data []
     (by decide) (by decide)⟩

/-- C9: link rewriting is idempotent. Provided the newsletter id, the
recipient id and the base URL contain no double quote (Firestore ids and
the configured base URL never do), applying the click-link rewriting to
its own output returns it unchanged: already-wrapped tracking URLs and
unsubscribe links are never double-wrapped. -/
theorem wrapLinks_idempotent (base n r : List Char) (hb : '"' ∉ base) (hn : '"' ∉ n)
    (hr : '"' ∉ r) :
    ∀ html, wrapLinksWithTracking base n r (wrapLinksWithTracking base n r html)
      = wrapLinksWithTracking base n r html := by
  suffices H : ∀ (L : Nat) (html : List Char), html.length < L →
      wrapLinksWithTracking base n r (wrapLinksWithTracking base n r html)
        = wrapLinksWithTracking base n r html by
    intro html
    exact H (html.length + 1) html (Nat.lt_succ_self _)
  intro L
  induction L with
  | zero => intro html h; exact absurd h (Nat.not_lt_zero _)
  | succ L ihL =>
    intro html hlen
    cases hscan : scanHref html with
    | none =>
      rw [wrapLinks_none base n r html hscan]
      exact wrapLinks_none base n r html hscan
    | some q =>
      obtain ⟨p, u, rest⟩ := q
      obtain ⟨hdec, hune, hunq⟩ := scanHref_decomp html p u rest hscan
      have hrest_lt : rest.length < L := by
        have := scanHref_rest_lt html p u rest hscan
        omega
      have hidem := ihL rest hrest_lt
      rw [wrapLinks_some base n r html p u rest hscan]
      have hscan0 : scanHref (p ++ hrefLit ++ u ++ '"' :: rest) = some (p, u, rest) := by
        rw [← hdec]
        exact hscan
      by_cases hskip : skipUrl u = true
      · have hRM : replaceMatch base n r u = hrefLit ++ u ++ ['"'] := by
          unfold replaceMatch
          rw [if_pos hskip]
        have hX : p ++ replaceMatch base n r u ++ wrapLinksWithTracking base n r rest
            = p ++ hrefLit ++ u ++ '"' :: wrapLinksWithTracking base n r rest := by
          rw [hRM]
          simp [List.append_assoc]
        rw [hX]
        have hscan' : scanHref (p ++ hrefLit ++ u ++ '"' :: wrapLinksWithTracking base n r rest)
            = some (p, u, wrapLinksWithTracking base n r rest) :=
          scanHref_shift p u rest u _ hscan0 hune hunq
        rw [wrapLinks_some base n r _ p u _ hscan', hidem, hRM]
        simp [List.append_assoc]
      · have hRM : replaceMatch base n r u = hrefLit ++ trackingUrl base n r u ++ ['"'] := by
          unfold replaceMatch
          rw [if_neg hskip]
        have hTq := trackingUrl_no_quote base n r u hb hn hr
        have hTne := trackingUrl_ne_nil base n r u
        have hX : p ++ replaceMatch base n r u ++ wrapLinksWithTracking base n r rest
            = p ++ hrefLit ++ trackingUrl base n r u
              ++ '"' :: wrapLinksWithTracking base n r rest := by
          rw [hRM]
          simp [List.append_assoc]
        rw [hX]
        have hscan' : scanHref (p ++ hrefLit ++ trackingUrl base n r u
              ++ '"' :: wrapLinksWithTracking base n r rest)
            = some (p, trackingUrl base n r u, wrapLinksWithTracking base n r rest) :=
          scanHref_shift p u rest (trackingUrl base n r u) _ hscan0 hTne hTq
        have hRMT : replaceMatch base n r (trackingUrl base n r u)
            = hrefLit ++ trackingUrl base n r u ++ ['"'] := by
          unfold replaceMatch
          rw [if_pos (skipUrl_trackingUrl base n r u)]
        rw [wrapLinks_some base n r _ p _ _ hscan', hidem, hRMT]
        simp [List.append_assoc]

def demoHtmlPage : List Char := "<a href=\"https://example.com/x\">link</a>".data

/-- C9 witness: idempotence applied to a concrete one-link page with the
default base URL and concrete ids. -/
theorem wrapLinks_idempotent_witness :
    wrapLinksWithTracking TRACKING_BASE_URL "n1".data "r1".data
        (wrapLinksWithTracking TRACKING_BASE_URL "n1".data "r1".data demoHtmlPage)
      = wrapLinksWithTracking TRACKING_BASE_URL "n1".data "r1".data demoHtmlPage :=
  wrapLinks_idempotent TRACKING_BASE_URL "n1".data "r1".data (by decide) (by decide) (by decide)
    demoHtmlPage

end NL
